import Mathlib

/-!
Verification of the VE.Direct frame decoder (`ve_direct/parser.py`,
`VEDirectParser.receive_bytes`) and the hex-protocol request encoder
(`ve_direct/hex_protocol.py`, `HexDataRequest`).

The decoder is embedded as a per-byte step function over an explicit
state record, mirroring the Python source line by line:
`receive_bytes` iterates `step` over the input, yields events, and stops
at the first raised exception (an out-of-bounds `bytearray` write or a
UTF-8 decode failure), which the embedding marks with an `err` flag.
Bytes are modelled as `Nat` (values of `bytes` iteration are 0..255),
buffers as `List Nat` of the fixed Python `bytearray` length.
-/

namespace VeDirect

/-- `VEDirectParser.State` (parser.py lines 86-91). -/
inductive State where
  | IDLE
  | RECORD_LABEL
  | RECORD_VALUE
  | CHECKSUM
  | RECORD_HEX
deriving DecidableEq, Repr

/-- An emitted event: `TextEvent` (label/value byte strings as decoded from
the buffers), `FrameEndEvent` (checksum validity), or `HexEvent` (raw hex
record bytes).  Label and value are kept as the byte lists fed to
`bytes.decode`; UTF-8 decoding is injective, so event equality on byte
lists coincides with Python equality of the decoded strings. -/
inductive Event where
  | TextEvent (label : List Nat) (value : List Nat)
  | FrameEndEvent (valid : Bool)
  | HexEvent (raw : List Nat)
deriving DecidableEq, Repr

/-- The mutable fields of `VEDirectParser.__init__` (parser.py lines 93-101). -/
structure PState where
  label_buf : List Nat
  value_buf : List Nat
  hex_buf : List Nat
  label_len : Nat
  value_len : Nat
  current_index : Nat
  checksum : Nat
  state : State
deriving DecidableEq, Repr

/-- Result of feeding bytes: final state, events yielded in order, and
whether a Python exception was raised (processing stops there). -/
structure Out where
  state : PState
  events : List Event
  err : Bool
deriving DecidableEq, Repr

def MAX_FIELD_LABEL_LEN : Nat := 9
def MAX_FIELD_VALUE_LEN : Nat := 33
def MAX_HEX_RECORD_LEN : Nat := 100

/-- Fresh parser state (parser.py lines 93-101): zero-filled bytearrays of
the three fixed capacities, zero lengths and checksum, `IDLE`. -/
def initState : PState :=
  { label_buf := List.replicate MAX_FIELD_LABEL_LEN 0
    value_buf := List.replicate MAX_FIELD_VALUE_LEN 0
    hex_buf := List.replicate MAX_HEX_RECORD_LEN 0
    label_len := 0
    value_len := 0
    current_index := 0
    checksum := 0
    state := State.IDLE }

/-- The byte string `b'Checksum'` compared against the label buffer
(parser.py line 120). -/
def checksumLabel : List Nat := [67, 104, 101, 99, 107, 115, 117, 109]

/-- Is `b` a UTF-8 continuation byte (`0x80..0xBF`)? -/
def contByte (b : Nat) : Bool := 128 ≤ b && b ≤ 191

/-- Validity of a byte list under Python's strict `bytes.decode('utf-8')`:
rejects overlong encodings, surrogates and code points above U+10FFFF.
`TextEvent` construction raises `UnicodeDecodeError` exactly when this is
false for the label or value bytes (parser.py lines 133-138). -/
def utf8Valid : List Nat → Bool
  | [] => true
  | b :: rest =>
    if b ≤ 127 then utf8Valid rest
    else if 194 ≤ b && b ≤ 223 then
      match rest with
      | c1 :: r => contByte c1 && utf8Valid r
      | [] => false
    else if b = 224 then
      match rest with
      | c1 :: c2 :: r => (160 ≤ c1 && c1 ≤ 191) && contByte c2 && utf8Valid r
      | _ => false
    else if 225 ≤ b && b ≤ 236 then
      match rest with
      | c1 :: c2 :: r => contByte c1 && contByte c2 && utf8Valid r
      | _ => false
    else if b = 237 then
      match rest with
      | c1 :: c2 :: r => (128 ≤ c1 && c1 ≤ 159) && contByte c2 && utf8Valid r
      | _ => false
    else if 238 ≤ b && b ≤ 239 then
      match rest with
      | c1 :: c2 :: r => contByte c1 && contByte c2 && utf8Valid r
      | _ => false
    else if b = 240 then
      match rest with
      | c1 :: c2 :: c3 :: r =>
          (144 ≤ c1 && c1 ≤ 191) && contByte c2 && contByte c3 && utf8Valid r
      | _ => false
    else if 241 ≤ b && b ≤ 243 then
      match rest with
      | c1 :: c2 :: c3 :: r => contByte c1 && contByte c2 && contByte c3 && utf8Valid r
      | _ => false
    else if b = 244 then
      match rest with
      | c1 :: c2 :: c3 :: r =>
          (128 ≤ c1 && c1 ≤ 143) && contByte c2 && contByte c3 && utf8Valid r
      | _ => false
    else false

/-- One iteration of the `for byte in input` loop of
`VEDirectParser.receive_bytes` (parser.py lines 107-157).

Stage 1 (lines 109-111): `:` outside `CHECKSUM` unconditionally switches
to `RECORD_HEX` and zeroes the index.  Stage 2 (lines 112-113): the byte
is added to the running checksum unless the (possibly just updated) state
is `RECORD_HEX`.  Stage 3 (lines 115-157): the `match` dispatch; a
`case` falling through matches Python's silent no-op, and `bytearray`
writes at an index beyond the buffer length raise `IndexError`, modelled
by `err := true` with the mutations made so far kept. -/
def step (σ : PState) (b : Nat) : Out :=
  let σ1 := if b = 58 ∧ σ.state ≠ State.CHECKSUM then
      { σ with current_index := 0, state := State.RECORD_HEX }
    else σ
  let σ2 := if σ1.state ≠ State.RECORD_HEX then
      { σ1 with checksum := σ1.checksum + b }
    else σ1
  match σ2.state with
  | State.IDLE =>
      if b = 10 then ⟨{ σ2 with state := State.RECORD_LABEL }, [], false⟩
      else ⟨σ2, [], false⟩
  | State.RECORD_LABEL =>
      if b = 9 then
        if σ2.label_buf.take σ2.current_index = checksumLabel then
          ⟨{ σ2 with state := State.CHECKSUM }, [], false⟩
        else
          ⟨{ σ2 with
              label_len := σ2.current_index
              current_index := 0
              state := State.RECORD_VALUE }, [], false⟩
      else
        if σ2.current_index < σ2.label_buf.length then
          ⟨{ σ2 with
              label_buf := σ2.label_buf.set σ2.current_index b
              current_index := σ2.current_index + 1 }, [], false⟩
        else ⟨σ2, [], true⟩
  | State.RECORD_VALUE =>
      if b = 13 then ⟨σ2, [], false⟩
      else if b = 10 then
        if utf8Valid (σ2.label_buf.take σ2.label_len)
            && utf8Valid (σ2.value_buf.take σ2.current_index) then
          ⟨{ σ2 with
              value_len := σ2.current_index
              current_index := 0
              label_len := 0
              state := State.RECORD_LABEL },
            [Event.TextEvent (σ2.label_buf.take σ2.label_len)
              (σ2.value_buf.take σ2.current_index)], false⟩
        else
          ⟨{ σ2 with value_len := σ2.current_index }, [], true⟩
      else
        if σ2.current_index < σ2.value_buf.length then
          ⟨{ σ2 with
              value_buf := σ2.value_buf.set σ2.current_index b
              current_index := σ2.current_index + 1 }, [], false⟩
        else ⟨σ2, [], true⟩
  | State.CHECKSUM =>
      ⟨{ σ2 with checksum := 0, state := State.IDLE },
        [Event.FrameEndEvent (decide (σ2.checksum % 256 = 0))], false⟩
  | State.RECORD_HEX =>
      if b = 10 then
        ⟨σ2, [Event.HexEvent (σ2.hex_buf.take σ2.current_index)], false⟩
      else if b = 58 then ⟨σ2, [], false⟩
      else
        if σ2.current_index < σ2.hex_buf.length then
          ⟨{ σ2 with
              hex_buf := σ2.hex_buf.set σ2.current_index b
              current_index := σ2.current_index + 1 }, [], false⟩
        else ⟨σ2, [], true⟩

/-- One call of `receive_bytes` with its generator drained: fold `step`
over the input, concatenating events, stopping at the first exception. -/
def run (σ : PState) : List Nat → Out
  | [] => ⟨σ, [], false⟩
  | b :: rest =>
    let r := step σ b
    if r.err then ⟨r.state, r.events, true⟩
    else
      let r2 := run r.state rest
      ⟨r2.state, r.events ++ r2.events, r2.err⟩

/-- Several successive `receive_bytes` calls on the same parser, one chunk
per call, each returned event sequence drained before the next call. -/
def runChunks (σ : PState) : List (List Nat) → Out
  | [] => ⟨σ, [], false⟩
  | c :: cs =>
    let r := run σ c
    let r2 := runChunks r.state cs
    ⟨r2.state, r.events ++ r2.events, r.err || r2.err⟩

/-- Does the stage-2 checksum accumulation of `step` count byte `b` in
state `σ`?  In `CHECKSUM` every byte counts (line 109 excludes it from the
`:` transition); in `RECORD_HEX`, or on the `:` that enters it, nothing
counts. -/
def eligibleByte (σ : PState) (b : Nat) : Bool :=
  σ.state = State.CHECKSUM || (σ.state ≠ State.RECORD_HEX && b ≠ 58)

/-- Sum of the checksum-eligible bytes of an input, following the run of
the parser (stopping where the run stops). -/
def eligibleSum (σ : PState) : List Nat → Nat
  | [] => 0
  | b :: rest =>
      (if eligibleByte σ b then b else 0) +
        (if (step σ b).err then 0 else eligibleSum (step σ b).state rest)

/-- Successive `bytearray` writes `buf[i] = x` starting at index `i`. -/
def writeFrom (buf : List Nat) (i : Nat) : List Nat → List Nat
  | [] => buf
  | b :: rest => writeFrom (buf.set i b) (i + 1) rest

/-- `HexRequestType` (hex_protocol.py lines 6-13): each kind's tag is the
ASCII code of its character, `'1' '3' '4' '6' '7' '8' 'A'`. -/
inductive HexRequestType where
  | PING
  | APP_VERSION
  | PRODUCT_ID
  | RESTART
  | GET
  | SET
  | ASYNC
deriving DecidableEq, Repr

/-- The `.value` of the enum member: the tag byte written at `buf[1]`. -/
def HexRequestType.value : HexRequestType → Nat
  | PING => 49
  | APP_VERSION => 51
  | PRODUCT_ID => 52
  | RESTART => 54
  | GET => 55
  | SET => 56
  | ASYNC => 65

/-- A constructed request: the concrete subclass is captured by the
`HexRequestType` its static `type()` returns, plus the `payload` field of
the frozen dataclass `HexDataRequest` (hex_protocol.py lines 16-32). -/
structure HexDataRequest where
  rtype : HexRequestType
  payload : Option (List Nat)
deriving DecidableEq, Repr

/-- One ASCII character for a hex digit after `.upper()`: `'0'..'9'` then
`'A'..'F'`. -/
def hexDigitChar (d : Nat) : Nat := if d < 10 then 48 + d else 55 + d

/-- `payload.hex().encode('ascii').upper()`: two uppercase hex characters
per byte, most-significant nibble first. -/
def hexUpper : List Nat → List Nat
  | [] => []
  | b :: rest => hexDigitChar (b / 16) :: hexDigitChar (b % 16) :: hexUpper rest

/-- `value_id.to_bytes(2, 'little')` for `value_id < 2 ^ 16`. -/
def toLE2 (n : Nat) : List Nat := [n % 256, n / 256]

/-- `HexDataRequest.serialize` (hex_protocol.py lines 25-32): `':'`, the
tag byte, then the uppercase ASCII-hex of the payload when present and
non-empty (an absent or empty payload appends nothing). -/
def HexDataRequest.serialize (r : HexDataRequest) : List Nat :=
  58 :: r.rtype.value ::
    (match r.payload with
     | none => []
     | some p => hexUpper p)

/-- `HexDataRequest.ping_request` (line 43): a `PingRequest` with no payload. -/
def HexDataRequest.ping_request : HexDataRequest := ⟨HexRequestType.PING, none⟩

/-- `HexDataRequest.app_version_request` (line 47). -/
def HexDataRequest.app_version_request : HexDataRequest := ⟨HexRequestType.APP_VERSION, none⟩

/-- `HexDataRequest.product_id_request` (line 51). -/
def HexDataRequest.product_id_request : HexDataRequest := ⟨HexRequestType.PRODUCT_ID, none⟩

/-- `HexDataRequest.restart_request` (line 55). -/
def HexDataRequest.restart_request : HexDataRequest := ⟨HexRequestType.RESTART, none⟩

/-- `HexDataRequest.get_request` (lines 50-52 of the claim's numbering):
a `GetRequest` whose payload is the id little-endian plus one zero byte. -/
def HexDataRequest.get_request (value_id : Nat) : HexDataRequest :=
  ⟨HexRequestType.GET, some (toLE2 value_id ++ [0])⟩

/-- `HexDataRequest.set_request`: payload `id-LE ++ [0] ++ value` (the
reserved byte at `buf[2]` stays zero). -/
def HexDataRequest.set_request (value_id : Nat) (value : List Nat) : HexDataRequest :=
  ⟨HexRequestType.SET, some (toLE2 value_id ++ 0 :: value)⟩

/-- `HexDataRequest.async_request` (hex_protocol.py lines 61-66): builds
the same payload as `set_request` and — as written in the source —
returns `SetRequest(bytes(buf))`, not an `AsyncRequest`. -/
def HexDataRequest.async_request (value_id : Nat) (value : List Nat) : HexDataRequest :=
  ⟨HexRequestType.SET, some (toLE2 value_id ++ 0 :: value)⟩

/-- `TestVEDirectParser.MPPT_SAMPLE` (unit_test.py lines 8-10), as bytes. -/
def MPPT_SAMPLE : List Nat :=
  [13, 10, 80, 73, 68, 9, 48, 120, 65, 48, 52, 50, 13, 10, 70, 87, 9, 49, 49, 54,
   13, 10, 83, 69, 82, 35, 9, 72, 81, 49, 54, 51, 54, 87, 82, 55, 75, 87,
   13, 10, 86, 9, 49, 49, 48, 50, 48, 13, 10, 73, 9, 48,
   13, 10, 86, 80, 86, 9, 49, 50, 51, 48, 48, 13, 10, 80, 80, 86, 9, 48,
   13, 10, 67, 83, 9, 48, 13, 10, 69, 82, 82, 9, 48,
   13, 10, 76, 79, 65, 68, 9, 79, 78, 13, 10, 73, 76, 9, 48,
   13, 10, 72, 49, 57, 9, 51, 50, 55, 13, 10, 72, 50, 48, 9, 48,
   13, 10, 72, 50, 49, 9, 48, 13, 10, 72, 50, 50, 9, 48,
   13, 10, 72, 50, 51, 9, 48, 13, 10, 72, 83, 68, 83, 9, 51, 53,
   13, 10, 67, 104, 101, 99, 107, 115, 117, 109, 9, 114]

/-- `TestVEDirectParser.MPPT_SAMPLE_FIELDS` (unit_test.py lines 12-31):
the seventeen expected label/value pairs followed by `FrameEndEvent(True)`,
with the strings as their byte sequences. -/
def MPPT_SAMPLE_FIELDS : List Event :=
  [Event.TextEvent [80, 73, 68] [48, 120, 65, 48, 52, 50],
   Event.TextEvent [70, 87] [49, 49, 54],
   Event.TextEvent [83, 69, 82, 35] [72, 81, 49, 54, 51, 54, 87, 82, 55, 75, 87],
   Event.TextEvent [86] [49, 49, 48, 50, 48],
   Event.TextEvent [73] [48],
   Event.TextEvent [86, 80, 86] [49, 50, 51, 48, 48],
   Event.TextEvent [80, 80, 86] [48],
   Event.TextEvent [67, 83] [48],
   Event.TextEvent [69, 82, 82] [48],
   Event.TextEvent [76, 79, 65, 68] [79, 78],
   Event.TextEvent [73, 76] [48],
   Event.TextEvent [72, 49, 57] [51, 50, 55],
   Event.TextEvent [72, 50, 48] [48],
   Event.TextEvent [72, 50, 49] [48],
   Event.TextEvent [72, 50, 50] [48],
   Event.TextEvent [72, 50, 51] [48],
   Event.TextEvent [72, 83, 68, 83] [51, 53],
   Event.FrameEndEvent true]

theorem run_nil (σ : PState) : run σ [] = ⟨σ, [], false⟩ := rfl

theorem run_cons (σ : PState) (b : Nat) (rest : List Nat) :
    run σ (b :: rest) =
      if (step σ b).err then ⟨(step σ b).state, (step σ b).events, true⟩
      else ⟨(run (step σ b).state rest).state,
            (step σ b).events ++ (run (step σ b).state rest).events,
            (run (step σ b).state rest).err⟩ := rfl

theorem run_single (σ : PState) (b : Nat) :
    run σ [b] = ⟨(step σ b).state, (step σ b).events, (step σ b).err⟩ := by
  rw [run_cons]
  cases h : (step σ b).err <;> simp [h, run_nil]

theorem run_append (σ : PState) (a t : List Nat) :
    run σ (a ++ t) =
      if (run σ a).err then run σ a
      else ⟨(run (run σ a).state t).state,
            (run σ a).events ++ (run (run σ a).state t).events,
            (run (run σ a).state t).err⟩ := by
  induction a generalizing σ with
  | nil => simp [run_nil]
  | cons b rest ih =>
      simp only [List.cons_append, run_cons]
      cases h : (step σ b).err with
      | true => simp
      | false =>
          simp only [Bool.false_eq_true, if_false, ih]
          cases h2 : (run (step σ b).state rest).err <;> simp [h2, List.append_assoc]

/-- C3: the claim says `receive_bytes` never raises on any input; the
source has no bound check, and a label of ten bytes makes the write
`label_buf[9] = byte` raise `IndexError`.  On `b'\nAAAAAAAAAA'` the run
aborts with no event emitted. -/
theorem c3_label_overflow_raises :
    (run initState (10 :: List.replicate 10 65)).err = true ∧
    (run initState (10 :: List.replicate 10 65)).events = [] := by decide

/-- C5 (counterexample): after the `\n` that terminates a hex message the
state stays `RECORD_HEX` and the index is not reset, so on `b':A\nB\n'`
the byte `B` is captured and a second `HexMessage` carrying `AB` is
emitted — not the behaviour the claim describes (`B` ignored, no further
hex content). -/
theorem c5_counterexample :
    (run initState [58, 65, 10, 66, 10]).events =
      [Event.HexEvent [65], Event.HexEvent [65, 66]] := by decide

/-- C6: `async_request` as written returns `SetRequest(bytes(buf))`
(hex_protocol.py line 224), so serializing the request it constructs for
id `0x0100`, value `b'\x2a'` yields tag byte `'8'` (0x38), not the Async
tag `'A'` the claim (and the `HexRequestType.ASYNC` member) prescribe;
the payload hex `0001002A` itself is as specified. -/
theorem c6_async_request_uses_set_tag :
    (HexDataRequest.async_request 256 [42]).serialize =
      [58, 56, 48, 48, 48, 49, 48, 48, 50, 65] ∧
    (HexDataRequest.async_request 256 [42]).rtype ≠ HexRequestType.ASYNC := by
  decide

/-- C7: serializing the Get request for register id `0x0100` produces
exactly the ASCII bytes `":7000100"` — colon, tag `'7'`, then the
uppercase hex of `[0x00, 0x01, 0x00]` — with nothing appended. -/
theorem c7_get_request_encoding :
    (HexDataRequest.get_request 256).serialize =
      [58, 55, 48, 48, 48, 49, 48, 48] := by decide

set_option maxRecDepth 40000 in
/-- C8: a fresh decoder fed the MPPT sample frame emits, in order, the
seventeen expected `TextEvent`s followed by `FrameEndEvent true`, with no
extraneous events and no exception. -/
theorem c8_mppt_sample :
    (run initState MPPT_SAMPLE).events = MPPT_SAMPLE_FIELDS ∧
    (run initState MPPT_SAMPLE).err = false := by decide

/-- C10: a byte other than `\n`, `\r`, `:` arriving in `IDLE` falls
through the dispatch: no event, no error, every buffer, length and index
unchanged — but the byte is added to the running checksum, so pre-frame
garbage affects the next frame's `valid` flag. -/
theorem c10_idle_garbage (σ : PState) (b : Nat) (h : σ.state = State.IDLE)
    (h10 : b ≠ 10) (_h13 : b ≠ 13) (h58 : b ≠ 58) :
    step σ b = ⟨{ σ with checksum := σ.checksum + b }, [], false⟩ := by
  simp [step, h, h10, h58]

/-- Closed instance of `c10_idle_garbage`: the fresh decoder on byte
`'P'` (0x50). -/
theorem c10_witness :
    step initState 80 = ⟨{ initState with checksum := initState.checksum + 80 }, [], false⟩ :=
  c10_idle_garbage initState 80 rfl (by decide) (by decide) (by decide)

theorem step_colon (σ : PState) (h : σ.state ≠ State.CHECKSUM) :
    step σ 58 = ⟨{ σ with current_index := 0, state := State.RECORD_HEX }, [], false⟩ := by
  simp [step, h]

theorem step_hex_newline (σ : PState) (h : σ.state = State.RECORD_HEX) :
    step σ 10 = ⟨σ, [Event.HexEvent (σ.hex_buf.take σ.current_index)], false⟩ := by
  simp [step, h]

theorem step_hex_restart (σ : PState) (h : σ.state = State.RECORD_HEX) :
    step σ 58 = ⟨{ σ with current_index := 0 }, [], false⟩ := by
  obtain ⟨lb, vb, hb, ll, vl, ci, ck, st⟩ := σ
  simp only at h
  subst h
  simp [step]

theorem step_hex_data (σ : PState) (b : Nat) (h : σ.state = State.RECORD_HEX)
    (hb1 : b ≠ 58) (hb2 : b ≠ 10) (hidx : σ.current_index < σ.hex_buf.length) :
    step σ b = ⟨{ σ with
        hex_buf := σ.hex_buf.set σ.current_index b
        current_index := σ.current_index + 1 }, [], false⟩ := by
  simp [step, h, hb1, hb2, hidx]

theorem writeFrom_length (l : List Nat) : ∀ (buf : List Nat) (i : Nat),
    (writeFrom buf i l).length = buf.length := by
  induction l with
  | nil => intro buf i; rfl
  | cons b rest ih => intro buf i; simp [writeFrom, ih]

theorem take_succ_set (b : Nat) : ∀ (i : Nat) (buf : List Nat), i < buf.length →
    (buf.set i b).take (i + 1) = buf.take i ++ [b]
  | 0, _ :: _, _ => rfl
  | i + 1, x :: xs, h => by
      have ih := take_succ_set b i xs (by simpa using h)
      simpa using ih

theorem take_writeFrom (l : List Nat) : ∀ (buf : List Nat) (i : Nat),
    i + l.length ≤ buf.length →
    (writeFrom buf i l).take (i + l.length) = buf.take i ++ l := by
  induction l with
  | nil => intro buf i h; simp [writeFrom]
  | cons b rest ih =>
      intro buf i h
      simp only [List.length_cons] at h
      have hlt : i < buf.length := by omega
      have h' : (i + 1) + rest.length ≤ (buf.set i b).length := by
        simp [List.length_set]; omega
      have key := ih (buf.set i b) (i + 1) h'
      have harith : i + (b :: rest).length = (i + 1) + rest.length := by
        simp; omega
      rw [writeFrom, harith, key, take_succ_set b i buf hlt]
      simp

theorem run_hex_fill (mid : List Nat) : ∀ σ : PState, σ.state = State.RECORD_HEX →
    (∀ b ∈ mid, b ≠ 58 ∧ b ≠ 10) →
    σ.current_index + mid.length ≤ σ.hex_buf.length →
    run σ mid = ⟨{ σ with
        hex_buf := writeFrom σ.hex_buf σ.current_index mid
        current_index := σ.current_index + mid.length }, [], false⟩ := by
  induction mid with
  | nil => intro σ h _ _; simp [run_nil, writeFrom]
  | cons b rest ih =>
      intro σ h hm hlen
      obtain ⟨hb1, hb2⟩ := hm b (List.mem_cons_self b rest)
      simp only [List.length_cons] at hlen
      have hidx : σ.current_index < σ.hex_buf.length := by omega
      rw [run_cons, step_hex_data σ b h hb1 hb2 hidx]
      have hrec := ih { σ with
          hex_buf := σ.hex_buf.set σ.current_index b
          current_index := σ.current_index + 1 }
        (by simp [h]) (fun x hx => hm x (List.mem_cons_of_mem b hx))
        (by simp [List.length_set]; omega)
      simp only [hrec]
      simp [writeFrom, List.length_set]
      omega

/-- C5 (amended): after the `\n` that terminates a hex message the parser
stays in `RECORD_HEX` with its index untouched: a further `\n` emits
another `HexMessage` of the whole accumulated buffer prefix, a non-`:`
data byte is appended at the running index, and `:` restarts capture at
index 0. -/
theorem c5_amended_hex_state_persists (σ : PState) (b : Nat)
    (h : σ.state = State.RECORD_HEX) (hb1 : b ≠ 58) (hb2 : b ≠ 10)
    (hidx : σ.current_index < σ.hex_buf.length) :
    step σ 10 = ⟨σ, [Event.HexEvent (σ.hex_buf.take σ.current_index)], false⟩ ∧
    step σ b = ⟨{ σ with
        hex_buf := σ.hex_buf.set σ.current_index b
        current_index := σ.current_index + 1 }, [], false⟩ ∧
    step σ 58 = ⟨{ σ with current_index := 0 }, [], false⟩ :=
  ⟨step_hex_newline σ h, step_hex_data σ b h hb1 hb2 hidx, step_hex_restart σ h⟩

/-- Closed instance of `c5_amended_hex_state_persists` at the state
reached from fresh on `b':A'`, with data byte `'B'`. -/
theorem c5_amended_witness :
    step (run initState [58, 65]).state 10 =
      ⟨(run initState [58, 65]).state,
        [Event.HexEvent ((run initState [58, 65]).state.hex_buf.take
          (run initState [58, 65]).state.current_index)], false⟩ ∧
    step (run initState [58, 65]).state 66 =
      ⟨{ (run initState [58, 65]).state with
          hex_buf := (run initState [58, 65]).state.hex_buf.set
            (run initState [58, 65]).state.current_index 66
          current_index := (run initState [58, 65]).state.current_index + 1 }, [], false⟩ ∧
    step (run initState [58, 65]).state 58 =
      ⟨{ (run initState [58, 65]).state with current_index := 0 }, [], false⟩ :=
  c5_amended_hex_state_persists (run initState [58, 65]).state 66
    (by decide) (by decide) (by decide) (by decide)

/-- C4: a `:` arriving mid-label or mid-value emits nothing for the
interrupted field, switches to hex capture at index 0, and after at most
`MAX_HEX_RECORD_LEN` non-`:`, non-`\n` bytes a `\n` makes the whole feed
emit exactly one `HexMessage` whose raw bytes are exactly the bytes
between the `:` and the `\n`. -/
theorem c4_hex_preemption (σ : PState) (mid : List Nat)
    (hmode : σ.state = State.RECORD_LABEL ∨ σ.state = State.RECORD_VALUE)
    (hlen : σ.hex_buf.length = MAX_HEX_RECORD_LEN)
    (hmid : ∀ b ∈ mid, b ≠ 58 ∧ b ≠ 10)
    (hbound : mid.length ≤ MAX_HEX_RECORD_LEN) :
    step σ 58 = ⟨{ σ with current_index := 0, state := State.RECORD_HEX }, [], false⟩ ∧
    (run σ (58 :: (mid ++ [10]))).events = [Event.HexEvent mid] ∧
    (run σ (58 :: (mid ++ [10]))).err = false := by
  have hnc : σ.state ≠ State.CHECKSUM := by
    rcases hmode with h | h <;> simp [h]
  have hcolon := step_colon σ hnc
  refine ⟨hcolon, ?_⟩
  rw [run_cons, hcolon]
  simp only [Bool.false_eq_true, if_false]
  set σh : PState := { σ with current_index := 0, state := State.RECORD_HEX } with hσh
  have hfill := run_hex_fill mid σh (by simp [hσh]) hmid
    (by simp [hσh, hlen]; omega)
  rw [run_append, hfill]
  simp only [Bool.false_eq_true, if_false]
  have hσm : ({ σh with
      hex_buf := writeFrom σh.hex_buf σh.current_index mid
      current_index := σh.current_index + mid.length } : PState).state
      = State.RECORD_HEX := by simp [hσh]
  rw [run_single, step_hex_newline _ hσm]
  simp only []
  constructor
  · simp only [List.append_nil, List.nil_append]
    have : (writeFrom σh.hex_buf σh.current_index mid).take (σh.current_index + mid.length)
        = σh.hex_buf.take σh.current_index ++ mid := by
      apply take_writeFrom
      simp [hσh, hlen]; omega
    simp [hσh] at this ⊢
    simp [this]
  · trivial

/-- Closed instance of `c4_hex_preemption`: mid-label state after
`b'\nP'`, hex record `b'AB'`. -/
theorem c4_witness :
    (run (run initState [10, 80]).state (58 :: ([65, 66] ++ [10]))).events =
      [Event.HexEvent [65, 66]] :=
  (c4_hex_preemption (run initState [10, 80]).state [65, 66]
    (Or.inl (by decide)) (by decide) (by decide) (by decide)).2.1

theorem runChunks_eq_run_join (cs : List (List Nat)) : ∀ σ : PState,
    (run σ cs.flatten).err = false → runChunks σ cs = run σ cs.flatten := by
  induction cs with
  | nil => intro σ _; rfl
  | cons c cs ih =>
      intro σ h
      rw [List.flatten_cons, run_append] at h
      cases h1 : (run σ c).err with
      | true => simp [h1] at h
      | false =>
          rw [h1] at h
          simp only [Bool.false_eq_true, if_false] at h
          rw [List.flatten_cons, run_append, h1]
          simp only [Bool.false_eq_true, if_false]
          show (⟨(runChunks (run σ c).state cs).state,
            (run σ c).events ++ (runChunks (run σ c).state cs).events,
            (run σ c).err || (runChunks (run σ c).state cs).err⟩ : Out) = _
          rw [ih (run σ c).state h, h1]
          simp

/-- C2: feeding the chunks of a split one `receive_bytes` call at a time
(draining the events between calls) gives exactly the state, ordered
event sequence and status of a single call on the concatenated input,
provided the whole input raises no exception. -/
theorem c2_streaming_invariant (cs : List (List Nat))
    (h : (run initState cs.flatten).err = false) :
    runChunks initState cs = run initState cs.flatten :=
  runChunks_eq_run_join cs initState h

/-- Closed instance of `c2_streaming_invariant`: the record `b'\r\nP\t0\n'`
split into three chunks. -/
theorem c2_witness :
    runChunks initState [[13, 10, 80], [9, 48], [10]] =
      run initState ([[13, 10, 80], [9, 48], [10]] : List (List Nat)).flatten :=
  c2_streaming_invariant [[13, 10, 80], [9, 48], [10]] (by decide)

theorem step_checksum_state (σ : PState) (b : Nat) (h : σ.state = State.CHECKSUM) :
    step σ b = ⟨{ σ with checksum := 0, state := State.IDLE },
      [Event.FrameEndEvent (decide ((σ.checksum + b) % 256 = 0))], false⟩ := by
  simp [step, h]

theorem step_idle_nl (σ : PState) (h : σ.state = State.IDLE) :
    step σ 10 = ⟨{ σ with checksum := σ.checksum + 10, state := State.RECORD_LABEL },
      [], false⟩ := by
  simp [step, h]

theorem step_idle_skip (σ : PState) (b : Nat) (h : σ.state = State.IDLE)
    (h10 : b ≠ 10) (h58 : b ≠ 58) :
    step σ b = ⟨{ σ with checksum := σ.checksum + b }, [], false⟩ := by
  simp [step, h, h10, h58]

theorem step_label_tab_checksum (σ : PState) (h : σ.state = State.RECORD_LABEL)
    (hcs : σ.label_buf.take σ.current_index = checksumLabel) :
    step σ 9 = ⟨{ σ with checksum := σ.checksum + 9, state := State.CHECKSUM },
      [], false⟩ := by
  simp [step, h, hcs]

theorem step_label_tab_value (σ : PState) (h : σ.state = State.RECORD_LABEL)
    (hcs : σ.label_buf.take σ.current_index ≠ checksumLabel) :
    step σ 9 = ⟨{ σ with
        label_len := σ.current_index
        current_index := 0
        checksum := σ.checksum + 9
        state := State.RECORD_VALUE }, [], false⟩ := by
  simp [step, h, hcs]

theorem step_label_write (σ : PState) (b : Nat) (h : σ.state = State.RECORD_LABEL)
    (h9 : b ≠ 9) (h58 : b ≠ 58) (hlt : σ.current_index < σ.label_buf.length) :
    step σ b = ⟨{ σ with
        label_buf := σ.label_buf.set σ.current_index b
        current_index := σ.current_index + 1
        checksum := σ.checksum + b }, [], false⟩ := by
  simp [step, h, h9, h58, hlt]

theorem step_label_overflow (σ : PState) (b : Nat) (h : σ.state = State.RECORD_LABEL)
    (h9 : b ≠ 9) (h58 : b ≠ 58) (hlt : ¬ σ.current_index < σ.label_buf.length) :
    step σ b = ⟨{ σ with checksum := σ.checksum + b }, [], true⟩ := by
  simp [step, h, h9, h58, hlt]

theorem step_value_cr (σ : PState) (h : σ.state = State.RECORD_VALUE) :
    step σ 13 = ⟨{ σ with checksum := σ.checksum + 13 }, [], false⟩ := by
  simp [step, h]

theorem step_value_nl_ok (σ : PState) (h : σ.state = State.RECORD_VALUE)
    (hd : (utf8Valid (σ.label_buf.take σ.label_len)
      && utf8Valid (σ.value_buf.take σ.current_index)) = true) :
    step σ 10 = ⟨{ σ with
        value_len := σ.current_index
        current_index := 0
        label_len := 0
        checksum := σ.checksum + 10
        state := State.RECORD_LABEL },
      [Event.TextEvent (σ.label_buf.take σ.label_len)
        (σ.value_buf.take σ.current_index)], false⟩ := by
  simp [step, h, hd]

theorem step_value_nl_bad (σ : PState) (h : σ.state = State.RECORD_VALUE)
    (hd : (utf8Valid (σ.label_buf.take σ.label_len)
      && utf8Valid (σ.value_buf.take σ.current_index)) = false) :
    step σ 10 = ⟨{ σ with
        value_len := σ.current_index
        checksum := σ.checksum + 10 }, [], true⟩ := by
  simp [step, h, hd]

theorem step_value_write (σ : PState) (b : Nat) (h : σ.state = State.RECORD_VALUE)
    (h13 : b ≠ 13) (h10 : b ≠ 10) (h58 : b ≠ 58)
    (hlt : σ.current_index < σ.value_buf.length) :
    step σ b = ⟨{ σ with
        value_buf := σ.value_buf.set σ.current_index b
        current_index := σ.current_index + 1
        checksum := σ.checksum + b }, [], false⟩ := by
  simp [step, h, h13, h10, h58, hlt]

theorem step_value_overflow (σ : PState) (b : Nat) (h : σ.state = State.RECORD_VALUE)
    (h13 : b ≠ 13) (h10 : b ≠ 10) (h58 : b ≠ 58)
    (hlt : ¬ σ.current_index < σ.value_buf.length) :
    step σ b = ⟨{ σ with checksum := σ.checksum + b }, [], true⟩ := by
  simp [step, h, h13, h10, h58, hlt]

theorem step_hex_overflow (σ : PState) (b : Nat) (h : σ.state = State.RECORD_HEX)
    (h58 : b ≠ 58) (h10 : b ≠ 10) (hlt : ¬ σ.current_index < σ.hex_buf.length) :
    step σ b = ⟨σ, [], true⟩ := by
  simp [step, h, h58, h10, hlt]

theorem step_cases (σ : PState) (b : Nat) :
    (∀ v, Event.FrameEndEvent v ∈ (step σ b).events →
      σ.state = State.CHECKSUM ∧ v = decide ((σ.checksum + b) % 256 = 0)) ∧
    (σ.state ≠ State.CHECKSUM →
      (step σ b).state.checksum = σ.checksum + (if eligibleByte σ b then b else 0)) ∧
    ((step σ b).state.state = State.CHECKSUM →
      σ.state = State.RECORD_LABEL ∧ b = 9 ∧
        σ.label_buf.take σ.current_index = checksumLabel) ∧
    (∀ raw, Event.HexEvent raw ∈ (step σ b).events → σ.state = State.RECORD_HEX) ∧
    (σ.state = State.RECORD_HEX → (step σ b).state.state = State.RECORD_HEX) ∧
    (∀ l w, Event.TextEvent l w ∈ (step σ b).events →
      (step σ b).state.state = State.RECORD_LABEL) ∧
    ((step σ b).events = [] ∨ ∃ e, (step σ b).events = [e]) ∧
    ((step σ b).err = true → (step σ b).events = []) := by
  cases hs : σ.state with
  | CHECKSUM =>
      rw [step_checksum_state σ b hs]
      simp [hs, eligibleByte]
  | IDLE =>
      by_cases h58 : b = 58
      · subst h58
        rw [step_colon σ (by simp [hs])]
        simp [hs, eligibleByte]
      · by_cases h10 : b = 10
        · subst h10
          rw [step_idle_nl σ hs]
          simp [hs, eligibleByte, h58]
        · rw [step_idle_skip σ b hs h10 h58]
          simp [hs, eligibleByte, h58]
  | RECORD_LABEL =>
      by_cases h58 : b = 58
      · subst h58
        rw [step_colon σ (by simp [hs])]
        simp [hs, eligibleByte]
      · by_cases h9 : b = 9
        · subst h9
          by_cases hcs : σ.label_buf.take σ.current_index = checksumLabel
          · rw [step_label_tab_checksum σ hs hcs]
            simp [hs, hcs, eligibleByte, h58]
          · rw [step_label_tab_value σ hs hcs]
            simp [hs, eligibleByte, h58]
        · by_cases hlt : σ.current_index < σ.label_buf.length
          · rw [step_label_write σ b hs h9 h58 hlt]
            simp [hs, eligibleByte, h58]
          · rw [step_label_overflow σ b hs h9 h58 hlt]
            simp [hs, eligibleByte, h58]
  | RECORD_VALUE =>
      by_cases h58 : b = 58
      · subst h58
        rw [step_colon σ (by simp [hs])]
        simp [hs, eligibleByte]
      · by_cases h13 : b = 13
        · subst h13
          rw [step_value_cr σ hs]
          simp [hs, eligibleByte, h58]
        · by_cases h10 : b = 10
          · subst h10
            cases hd : (utf8Valid (σ.label_buf.take σ.label_len)
                && utf8Valid (σ.value_buf.take σ.current_index)) with
            | true =>
                rw [step_value_nl_ok σ hs hd]
                simp [hs, eligibleByte, h58]
            | false =>
                rw [step_value_nl_bad σ hs hd]
                simp [hs, eligibleByte, h58]
          · by_cases hlt : σ.current_index < σ.value_buf.length
            · rw [step_value_write σ b hs h13 h10 h58 hlt]
              simp [hs, eligibleByte, h58]
            · rw [step_value_overflow σ b hs h13 h10 h58 hlt]
              simp [hs, eligibleByte, h58]
  | RECORD_HEX =>
      by_cases h58 : b = 58
      · subst h58
        rw [step_hex_restart σ hs]
        simp [hs, eligibleByte]
      · by_cases h10 : b = 10
        · subst h10
          rw [step_hex_newline σ hs]
          simp [hs, eligibleByte, h58]
        · by_cases hlt : σ.current_index < σ.hex_buf.length
          · rw [step_hex_data σ b hs h58 h10 hlt]
            simp [hs, eligibleByte, h58]
          · rw [step_hex_overflow σ b hs h58 h10 hlt]
            simp [hs, eligibleByte, h58]

theorem step_frameEnd_mem (σ : PState) (b : Nat) (v : Bool)
    (h : Event.FrameEndEvent v ∈ (step σ b).events) :
    σ.state = State.CHECKSUM ∧ v = decide ((σ.checksum + b) % 256 = 0) :=
  (step_cases σ b).1 v h

theorem step_non_checksum_acc (σ : PState) (b : Nat) (h : σ.state ≠ State.CHECKSUM) :
    (step σ b).state.checksum = σ.checksum + (if eligibleByte σ b then b else 0) :=
  (step_cases σ b).2.1 h

theorem step_checksum_entry (σ : PState) (b : Nat)
    (h : (step σ b).state.state = State.CHECKSUM) :
    σ.state = State.RECORD_LABEL ∧ b = 9 ∧
      σ.label_buf.take σ.current_index = checksumLabel :=
  (step_cases σ b).2.2.1 h

theorem step_hex_mem (σ : PState) (b : Nat) (raw : List Nat)
    (h : Event.HexEvent raw ∈ (step σ b).events) : σ.state = State.RECORD_HEX :=
  (step_cases σ b).2.2.2.1 raw h

theorem step_hex_absorb (σ : PState) (b : Nat) (h : σ.state = State.RECORD_HEX) :
    (step σ b).state.state = State.RECORD_HEX :=
  (step_cases σ b).2.2.2.2.1 h

theorem step_text_mem (σ : PState) (b : Nat) (l w : List Nat)
    (h : Event.TextEvent l w ∈ (step σ b).events) :
    (step σ b).state.state = State.RECORD_LABEL :=
  (step_cases σ b).2.2.2.2.2.1 l w h

theorem step_events_shape (σ : PState) (b : Nat) :
    (step σ b).events = [] ∨ ∃ e, (step σ b).events = [e] :=
  (step_cases σ b).2.2.2.2.2.2.1

theorem step_err_events (σ : PState) (b : Nat) (h : (step σ b).err = true) :
    (step σ b).events = [] :=
  (step_cases σ b).2.2.2.2.2.2.2 h

theorem run_lift_cons (σ : PState) (b : Nat) (he : (step σ b).err = false)
    (s₁ : List Nat) :
    run σ (b :: s₁) = ⟨(run (step σ b).state s₁).state,
      (step σ b).events ++ (run (step σ b).state s₁).events,
      (run (step σ b).state s₁).err⟩ := by
  rw [run_cons, he]
  simp

theorem run_hex_no_frameEnd (s : List Nat) : ∀ σ : PState,
    σ.state = State.RECORD_HEX → ∀ v, Event.FrameEndEvent v ∉ (run σ s).events := by
  induction s with
  | nil => intro σ _ v; simp [run_nil]
  | cons b rest ih =>
      intro σ h v
      have hnoFE : Event.FrameEndEvent v ∉ (step σ b).events := by
        intro hmem
        have hcs := (step_frameEnd_mem σ b v hmem).1
        rw [h] at hcs
        exact State.noConfusion hcs
      rw [run_cons]
      cases he : (step σ b).err with
      | true => simpa using hnoFE
      | false =>
          simp only [Bool.false_eq_true, if_false]
          intro hmem
          rcases List.mem_append.mp hmem with hm | hm
          · exact hnoFE hm
          · exact ih (step σ b).state (step_hex_absorb σ b h) v hm

theorem run_checksum_acc (s : List Nat) : ∀ σ : PState,
    (run σ s).err = false →
    (∀ v, Event.FrameEndEvent v ∉ (run σ s).events) →
    (run σ s).state.checksum = σ.checksum + eligibleSum σ s := by
  induction s with
  | nil => intro σ _ _; simp [run_nil, eligibleSum]
  | cons b rest ih =>
      intro σ herr hnoFE
      cases he : (step σ b).err with
      | true => rw [run_cons, he] at herr; simp at herr
      | false =>
          rw [run_lift_cons σ b he rest] at herr hnoFE ⊢
          simp only at herr hnoFE ⊢
          have hstep_noFE : ∀ v, Event.FrameEndEvent v ∉ (step σ b).events := by
            intro v hv
            exact hnoFE v (List.mem_append.mpr (Or.inl hv))
          have hrest_noFE : ∀ v,
              Event.FrameEndEvent v ∉ (run (step σ b).state rest).events := by
            intro v hv
            exact hnoFE v (List.mem_append.mpr (Or.inr hv))
          have hnc : σ.state ≠ State.CHECKSUM := by
            intro hcs
            exact hstep_noFE (decide ((σ.checksum + b) % 256 = 0))
              (by rw [step_checksum_state σ b hcs]; simp)
          rw [ih (step σ b).state herr hrest_noFE, step_non_checksum_acc σ b hnc]
          rw [eligibleSum, he]
          simp only [Bool.false_eq_true, if_false]
          omega

theorem eligibleSum_append (a : List Nat) : ∀ (σ : PState) (t : List Nat),
    (run σ a).err = false →
    eligibleSum σ (a ++ t) = eligibleSum σ a + eligibleSum (run σ a).state t := by
  induction a with
  | nil => intro σ t _; simp [eligibleSum, run_nil]
  | cons b rest ih =>
      intro σ t herr
      cases he : (step σ b).err with
      | true => rw [run_cons, he] at herr; simp at herr
      | false =>
          rw [run_lift_cons σ b he rest] at herr
          simp only at herr
          show eligibleSum σ (b :: (rest ++ t)) = _
          rw [eligibleSum, eligibleSum, he]
          simp only [Bool.false_eq_true, if_false]
          rw [ih (step σ b).state t herr, run_lift_cons σ b he rest]
          dsimp only
          omega

/-- C1: if the whole input emits exactly one `FrameEndEvent`, as its last
event, produced by the final byte, then that event's `valid` flag is true
iff the sum of the input's checksum-eligible bytes (every byte the
accumulation stage counts, the checksum terminator byte included) is
`0 mod 256`; moreover the running checksum is then reset to `0` and the
state returns to `IDLE`. -/
theorem c1_checksum_validity (s : List Nat) (b : Nat) (ts : List Event) (v : Bool)
    (h1 : (run initState s).events = ts)
    (h2 : (run initState (s ++ [b])).events = ts ++ [Event.FrameEndEvent v])
    (h3 : ∀ u, Event.FrameEndEvent u ∉ ts) :
    (v = true ↔ eligibleSum initState (s ++ [b]) % 256 = 0) ∧
    (run initState (s ++ [b])).state.checksum = 0 ∧
    (run initState (s ++ [b])).state.state = State.IDLE := by
  have herr : (run initState s).err = false := by
    cases he : (run initState s).err with
    | false => rfl
    | true =>
        rw [run_append, he] at h2
        simp only [if_true] at h2
        rw [h1] at h2
        exact absurd h2 (by simp)
  rw [run_append, herr] at h2
  simp only [Bool.false_eq_true, if_false] at h2
  rw [h1, run_single] at h2
  have hev : (step (run initState s).state b).events = [Event.FrameEndEvent v] :=
    List.append_cancel_left h2
  have hmem : Event.FrameEndEvent v ∈ (step (run initState s).state b).events := by
    rw [hev]; simp
  obtain ⟨hcs, hv⟩ := step_frameEnd_mem _ b v hmem
  have hnoFE_run : ∀ u, Event.FrameEndEvent u ∉ (run initState s).events := by
    intro u
    rw [h1]
    exact h3 u
  have hacc : (run initState s).state.checksum = eligibleSum initState s := by
    have := run_checksum_acc s initState herr hnoFE_run
    simpa [initState] using this
  have hsum : eligibleSum initState (s ++ [b]) = eligibleSum initState s + b := by
    rw [eligibleSum_append s initState [b] herr]
    simp [eligibleSum, eligibleByte, hcs]
  have hstep := step_checksum_state _ b hcs
  refine ⟨?_, ?_⟩
  · rw [hv, hacc] at *
    rw [hsum, hacc]
    simp
  · rw [run_append, herr]
    simp only [Bool.false_eq_true, if_false]
    rw [run_single, hstep]
    simp

/-- Closed instance of `c1_checksum_validity`: the minimal complete frame
`b'\nChecksum\t' + bytes([186])`, whose byte sum is 1024. -/
theorem c1_witness :
    (true = true ↔ eligibleSum initState (([10] ++ checksumLabel ++ [9]) ++ [186]) % 256 = 0) ∧
    (run initState (([10] ++ checksumLabel ++ [9]) ++ [186])).state.checksum = 0 ∧
    (run initState (([10] ++ checksumLabel ++ [9]) ++ [186])).state.state = State.IDLE :=
  c1_checksum_validity ([10] ++ checksumLabel ++ [9]) 186 [] true (by decide) (by decide)
    (fun u => List.not_mem_nil _)

theorem run_frameEnd_analysis (s : List Nat) : ∀ (σ : PState) (pre : List Event)
    (v : Bool) (post : List Event),
    (run σ s).events = pre ++ Event.FrameEndEvent v :: post →
    ((∀ e ∈ pre, (∃ l w, e = Event.TextEvent l w) ∨ ∃ u, e = Event.FrameEndEvent u) ∧
     ((σ.state = State.CHECKSUM ∧ pre = []) ∨
      ∃ s₁ c rest, s = s₁ ++ 9 :: c :: rest ∧
        (run σ s₁).events = pre ∧ (run σ s₁).err = false ∧
        (run σ s₁).state.state = State.RECORD_LABEL ∧
        (run σ s₁).state.label_buf.take (run σ s₁).state.current_index
          = checksumLabel)) := by
  induction s with
  | nil =>
      intro σ pre v post h
      rw [run_nil] at h
      exact absurd h (by simp)
  | cons b rest ih =>
      intro σ pre v post h
      cases he : (step σ b).err with
      | true =>
          rw [run_cons, he] at h
          simp only [if_true] at h
          rw [step_err_events σ b he] at h
          exact absurd h (by simp)
      | false =>
          rw [run_lift_cons σ b he rest] at h
          simp only at h
          rcases step_events_shape σ b with hsh | ⟨e, hsh⟩
          · rw [hsh, List.nil_append] at h
            obtain ⟨hpre, hdisj⟩ := ih (step σ b).state pre v post h
            refine ⟨hpre, ?_⟩
            rcases hdisj with ⟨hcs2, hpre_nil⟩ |
              ⟨s₁, c, rest', heq, hev, herr1, hst, hlab⟩
            · obtain ⟨hsl, hb9, hlab⟩ := step_checksum_entry σ b hcs2
              subst hb9
              subst hpre_nil
              cases rest with
              | nil =>
                  rw [run_nil] at h
                  exact absurd h (by simp)
              | cons c rest' =>
                  refine Or.inr ⟨[], c, rest', by simp, by rw [run_nil], rfl, ?_, ?_⟩
                  · rw [run_nil]; exact hsl
                  · rw [run_nil]; exact hlab
            · subst heq
              refine Or.inr ⟨b :: s₁, c, rest', rfl, ?_, ?_, ?_, ?_⟩
              · rw [run_lift_cons σ b he s₁, hsh, hev]; rfl
              · rw [run_lift_cons σ b he s₁]; exact herr1
              · rw [run_lift_cons σ b he s₁]; exact hst
              · rw [run_lift_cons σ b he s₁]; exact hlab
          · rw [hsh] at h
            cases pre with
            | nil =>
                simp only [List.cons_append, List.nil_append] at h
                injection h with h1 h2
                subst h1
                have hmem : Event.FrameEndEvent v ∈ (step σ b).events := by
                  rw [hsh]; simp
                obtain ⟨hcs0, _⟩ := step_frameEnd_mem σ b v hmem
                exact ⟨by simp, Or.inl ⟨hcs0, rfl⟩⟩
            | cons p pre' =>
                simp only [List.cons_append, List.nil_append] at h
                injection h with h1 h2
                subst h1
                obtain ⟨hpre', hdisj⟩ := ih (step σ b).state pre' v post h2
                cases e with
                | HexEvent raw =>
                    exfalso
                    have hσ := step_hex_mem σ b raw (by rw [hsh]; simp)
                    have habs := step_hex_absorb σ b hσ
                    have hnot := run_hex_no_frameEnd rest (step σ b).state habs v
                    rw [h2] at hnot
                    exact hnot (by simp)
                | TextEvent l w =>
                    have hstL := step_text_mem σ b l w (by rw [hsh]; simp)
                    constructor
                    · intro x hx
                      rcases List.mem_cons.mp hx with hx | hx
                      · subst hx; exact Or.inl ⟨l, w, rfl⟩
                      · exact hpre' x hx
                    · rcases hdisj with ⟨hcs2, hpre_nil⟩ |
                        ⟨s₁, c, rest', heq, hev, herr1, hst, hlab⟩
                      · rw [hstL] at hcs2
                        exact absurd hcs2 (by simp)
                      · subst heq
                        refine Or.inr ⟨b :: s₁, c, rest', rfl, ?_, ?_, ?_, ?_⟩
                        · rw [run_lift_cons σ b he s₁, hsh, hev]; rfl
                        · rw [run_lift_cons σ b he s₁]; exact herr1
                        · rw [run_lift_cons σ b he s₁]; exact hst
                        · rw [run_lift_cons σ b he s₁]; exact hlab
                | FrameEndEvent u =>
                    have hmem : Event.FrameEndEvent u ∈ (step σ b).events := by
                      rw [hsh]; simp
                    obtain ⟨hcs0, _⟩ := step_frameEnd_mem σ b u hmem
                    constructor
                    · intro x hx
                      rcases List.mem_cons.mp hx with hx | hx
                      · subst hx; exact Or.inr ⟨u, rfl⟩
                      · exact hpre' x hx
                    · rcases hdisj with ⟨hcs2, hpre_nil⟩ |
                        ⟨s₁, c, rest', heq, hev, herr1, hst, hlab⟩
                      · rw [step_checksum_state σ b hcs0] at hcs2
                        exact absurd hcs2 (by simp)
                      · subst heq
                        refine Or.inr ⟨b :: s₁, c, rest', rfl, ?_, ?_, ?_, ?_⟩
                        · rw [run_lift_cons σ b he s₁, hsh, hev]; rfl
                        · rw [run_lift_cons σ b he s₁]; exact herr1
                        · rw [run_lift_cons σ b he s₁]; exact hst
                        · rw [run_lift_cons σ b he s₁]; exact hlab

/-- C9: whenever the decoder (run from fresh) emits a `FrameEndEvent`,
every earlier event is a `TextEvent` or a `FrameEndEvent` (never a
`HexEvent`), and the input up to that point ends in a tab consumed in
`RECORD_LABEL` with the label buffer holding exactly `b'Checksum'` — the
`FrameEnd` can only follow detection of the literal `Checksum` label, the
events of the frame before it being exactly the `pre` text fields. -/
theorem c9_frameEnd_follows_checksum (s : List Nat) (pre : List Event) (v : Bool)
    (post : List Event)
    (h : (run initState s).events = pre ++ Event.FrameEndEvent v :: post) :
    (∀ e ∈ pre, (∃ l w, e = Event.TextEvent l w) ∨ ∃ u, e = Event.FrameEndEvent u) ∧
    ∃ s₁ c rest, s = s₁ ++ 9 :: c :: rest ∧
      (run initState s₁).events = pre ∧
      (run initState s₁).state.state = State.RECORD_LABEL ∧
      (run initState s₁).state.label_buf.take (run initState s₁).state.current_index
        = checksumLabel := by
  obtain ⟨h1, h2⟩ := run_frameEnd_analysis s initState pre v post h
  refine ⟨h1, ?_⟩
  rcases h2 with ⟨hcs, _⟩ | ⟨s₁, c, rest, heq, hev, _, hst, hlab⟩
  · exact absurd hcs (by simp [initState])
  · exact ⟨s₁, c, rest, heq, hev, hst, hlab⟩

/-- Closed instance of `c9_frameEnd_follows_checksum` on the minimal
complete frame `b'\nChecksum\t' + bytes([186])`. -/
theorem c9_witness :
    (∀ e ∈ ([] : List Event),
      (∃ l w, e = Event.TextEvent l w) ∨ ∃ u, e = Event.FrameEndEvent u) ∧
    ∃ s₁ c rest, ([10] ++ checksumLabel ++ [9, 186] : List Nat) = s₁ ++ 9 :: c :: rest ∧
      (run initState s₁).events = [] ∧
      (run initState s₁).state.state = State.RECORD_LABEL ∧
      (run initState s₁).state.label_buf.take (run initState s₁).state.current_index
        = checksumLabel :=
  c9_frameEnd_follows_checksum ([10] ++ checksumLabel ++ [9, 186]) [] true [] (by decide)

end VeDirect
